import Mathlib

/- Verification of the convolutional Variational Autoencoder of
   src/src/models/variationalautoencoder.py.

   Shapes of tensors are lists of dimensions, batch dimension omitted
   (as in keras, where `K.int_shape(x)[1:]` drops the batch axis).
   Real-valued tensor arithmetic is modelled over ℝ.  The randomness of
   the sampling layer is an explicit argument `eps`, as the spec's design
   notes require for testability. -/

/-- Output spatial size of a stride-b same-padded convolution on size a:
ceil(a / b), written with natural subtraction. -/
def ceilDiv (a b : ℕ) : ℕ := (a + b - 1) / b

/-- The keras layer kinds this model instantiates.  Convolutions in this
file always use padding 'same', so padding is not a field. -/
inductive Layer where
  | conv (filters kernel stride : ℕ)
  | convT (filters kernel stride : ℕ)
  | relu
  | batchNorm
  | dense (units : ℕ)
  | reshape (target : List ℕ)
  | sigmoid
deriving DecidableEq

/-- Shape semantics of one keras layer applied to a tensor of shape `sh`
(batch axis omitted): a same-padded Conv2D maps [h, w, c] to
[ceil(h/s), ceil(w/s), f]; a same-padded Conv2DTranspose maps [h, w, c]
to [h*s, w*s, f]; ReLU, BatchNormalization and sigmoid Activation keep
the shape; Dense acts on a rank-1 tensor; Reshape requires equal element
counts.  A rank mismatch is a build-time failure (`none`). -/
def layerOutShape (sh : List ℕ) : Layer → Option (List ℕ)
  | Layer.conv f _ s =>
    match sh with
    | [h, w, _] => some [ceilDiv h s, ceilDiv w s, f]
    | _ => none
  | Layer.convT f _ s =>
    match sh with
    | [h, w, _] => some [h * s, w * s, f]
    | _ => none
  | Layer.relu => some sh
  | Layer.batchNorm => some sh
  | Layer.dense u =>
    match sh with
    | [_] => some [u]
    | _ => none
  | Layer.reshape t => if sh.prod = t.prod then some t else none
  | Layer.sigmoid => some sh

/-- Thread a shape through a stack of layers, failing if any layer
rejects its input shape. -/
def runShapes : List ℕ → List Layer → Option (List ℕ)
  | sh, [] => some sh
  | sh, l :: rest =>
    match layerOutShape sh l with
    | some sh2 => runShapes sh2 rest
    | none => none

/-- Body of the build_encoder loop at index l: Conv2D(filters[l],
kernels[l], strides[l], padding='same') then ReLU then
BatchNormalization.  List indexing may fail, as in python. -/
def encBlock (filters kernels strides : List ℕ) (l : ℕ) : Option (List Layer) :=
  match filters.get? l, kernels.get? l, strides.get? l with
  | some f, some k, some s => some [Layer.conv f k s, Layer.relu, Layer.batchNorm]
  | _, _, _ => none

/-- Body of the build_decoder loop at index l: Conv2DTranspose(filters[l],
kernels[l], strides[l], padding='same') then ReLU then
BatchNormalization. -/
def decBlock (filters kernels strides : List ℕ) (l : ℕ) : Option (List Layer) :=
  match filters.get? l, kernels.get? l, strides.get? l with
  | some f, some k, some s => some [Layer.convT f k s, Layer.relu, Layer.batchNorm]
  | _, _, _ => none

/-- Run a loop body over a list of layer indices, concatenating the
produced blocks; any indexing failure aborts the build. -/
def blocksFor (blk : ℕ → Option (List Layer)) : List ℕ → Option (List Layer)
  | [] => some []
  | l :: rest =>
    match blk l, blocksFor blk rest with
    | some b, some bs => some (b ++ bs)
    | _, _ => none

/-- build_encoder's convolutional stack: `for l in range(self.n_conv_layers)`
where n_conv_layers = len(filters). -/
def build_encoder (filters kernels strides : List ℕ) : Option (List Layer) :=
  blocksFor (encBlock filters kernels strides) (List.range filters.length)

/-- build_decoder's layer stack: Dense(prod(shape_before_ls)),
Reshape(shape_before_ls), then `for l in reversed(range(1, n_conv_layers))`
a transposed-convolution block, and finally
Conv2DTranspose(filters=1, kernels[0], strides[0], padding='same') and a
sigmoid Activation.  The final layer's kernels[0]/strides[0] lookups fail
when the lists are empty, exactly as in python. -/
def build_decoder (filters kernels strides : List ℕ) (shape_before_ls : List ℕ) :
    Option (List Layer) :=
  match blocksFor (decBlock filters kernels strides) ((List.range' 1 (filters.length - 1)).reverse) with
  | some blocks =>
    match kernels.get? 0, strides.get? 0 with
    | some k0, some s0 =>
      some (Layer.dense shape_before_ls.prod :: Layer.reshape shape_before_ls ::
        (blocks ++ [Layer.convT 1 k0 s0, Layer.sigmoid]))
    | _, _ => none
  | none => none

/-- The state a successful VariationalAutoencoder.__init__ leaves behind:
the five configuration fields, the encoder's convolutional stack, the
recorded shape_before_ls, and the decoder stack. -/
structure BuiltVAE where
  input_shape : List ℕ
  filters : List ℕ
  kernels : List ℕ
  strides : List ℕ
  latent_space_shape : ℕ
  encoder : List Layer
  shape_before_ls : List ℕ
  decoder : List Layer
deriving DecidableEq

/-- VariationalAutoencoder.__init__: record the configuration, assert the
two length invariants, then build_model (encoder, shape_before_ls,
decoder, composite graph).  Any assertion or build failure is fatal and
yields no model instance. -/
def mkVAE (input_shape filters kernels strides : List ℕ) (latent_space_shape : ℕ) :
    Except String BuiltVAE :=
  if kernels.length = filters.length then
    if strides.length = filters.length then
      match build_encoder filters kernels strides with
      | some enc =>
        match runShapes input_shape enc with
        | some sb =>
          match build_decoder filters kernels strides sb with
          | some dec =>
            match runShapes [latent_space_shape] dec with
            | some _ =>
              Except.ok ⟨input_shape, filters, kernels, strides, latent_space_shape, enc, sb, dec⟩
            | none => Except.error "Graph build failed"
          | none => Except.error "IndexError: list index out of range"
        | none => Except.error "Graph build failed"
      | none => Except.error "IndexError: list index out of range"
    else Except.error "Number of strides should be same than number of filters."
  else Except.error "Number of kernels should be same than number of filters."

/-- Shape of Decoder(Encoder(x)): the encoder emits a latent code of
shape [latent_space_shape], which the decoder stack then transforms. -/
def vaeOutputShape (b : BuiltVAE) : Option (List ℕ) :=
  runShapes [b.latent_space_shape] b.decoder

deriving instance DecidableEq for Except

/-- Element-wise combination of three equally-shaped rank-1 tensors. -/
def zipWith3 (f : α → β → γ → δ) : List α → List β → List γ → List δ
  | a :: as, b :: bs, c :: cs => f a b c :: zipWith3 f as bs cs
  | _, _, _ => []

/-- A rank-3 tensor value (one sample: spatial rows, columns, channels). -/
abbrev Tensor3 := List (List (List ℝ))

/-- A batch of rank-3 tensor values (batch axis outermost). -/
abbrev Tensor4 := List Tensor3

/-- Element-wise difference of two rank-3 tensors. -/
def tsub3 (a b : Tensor3) : Tensor3 :=
  List.zipWith (List.zipWith (List.zipWith (fun x y => x - y))) a b

/-- Element-wise map over a rank-3 tensor. -/
def tmap3 (f : ℝ → ℝ) (t : Tensor3) : Tensor3 :=
  t.map (List.map (List.map f))

/-- Sum of all entries of a rank-3 tensor. -/
def tsum3 (t : Tensor3) : ℝ :=
  (t.map (fun m => (m.map List.sum).sum)).sum

/-- Number of entries of a rank-3 tensor. -/
def tcount3 (t : Tensor3) : ℕ :=
  (t.map (fun m => (m.map List.length).sum)).sum

/-- Mean of all entries of a rank-3 tensor: `K.mean(..., axis=[1, 2, 3])`
restricted to one batch sample reduces over every non-batch axis. -/
noncomputable def tmean3 (t : Tensor3) : ℝ := tsum3 t / tcount3 t

/-- compute_loss: error = y_target - y_predicted;
K.mean(K.square(error), axis=[1, 2, 3]) — one scalar per batch sample,
the mean of the squared error over the spatial and channel axes. -/
noncomputable def compute_loss (y_target y_predicted : Tensor4) : List ℝ :=
  List.zipWith (fun t p => tmean3 (tmap3 (fun x => x ^ 2) (tsub3 t p))) y_target y_predicted

/-- compute_kl_loss:
-0.5 * K.sum(1 + self.sigma - K.square(self.mu) - K.exp(self.sigma), axis=1).
mu and sigma are [batch, latent] tensors captured from the encoder; the
y_target / y_predicted arguments are accepted and ignored. -/
noncomputable def compute_kl_loss (_y_target _y_predicted : Tensor4)
    (mu sigma : List (List ℝ)) : List ℝ :=
  List.zipWith
    (fun m s =>
      -0.5 * (List.zipWith (fun mi si => 1 + si - mi ^ 2 - Real.exp si) m s).sum)
    mu sigma

/-- compute_combined_loss: AE_LOSS_WEIGHT * loss + kl_loss, per batch
sample.  AE_LOSS_WEIGHT is imported from the configuration module (not in
src/); it is a fixed external hyperparameter, so it is a parameter here. -/
noncomputable def compute_combined_loss (AE_LOSS_WEIGHT : ℝ)
    (y_target y_predicted : Tensor4) (mu sigma : List (List ℝ)) : List ℝ :=
  let loss := compute_loss y_target y_predicted
  let kl_loss := compute_kl_loss y_target y_predicted mu sigma
  List.zipWith (fun l k => AE_LOSS_WEIGHT * l + k) loss kl_loss

/-- The sampling Lambda layer normal_distribution:
z = mu + K.exp(sigma / 2) * eps, element-wise, where eps is a standard
normal draw of the same shape as mu, supplied externally. -/
noncomputable def normal_distribution (mu sigma eps : List ℝ) : List ℝ :=
  zipWith3 (fun m s e => m + Real.exp (s / 2) * e) mu sigma eps

/-- The keras sigmoid activation used by the decoder's output layer. -/
noncomputable def sigmoid (x : ℝ) : ℝ := 1 / (1 + Real.exp (-x))

namespace VariationalAutoencoder

/-- A built model together with its learnable weights.  Weight values are
owned by the layers; we model the snapshot keras serializes as one value. -/
structure ModelState where
  arch : BuiltVAE
  weights : List ℝ

/-- The two artifacts `save` writes: params.pkl, the list of the five
configuration fields in order, and weights.h5, the weight snapshot. -/
structure SavedModel where
  params : List ℕ × List ℕ × List ℕ × List ℕ × ℕ
  weights : List ℝ

/-- save: serialize [input_shape, filters, kernels, strides,
latent_space_shape] (in that order) and the model weights. -/
def save (m : ModelState) : SavedModel :=
  ⟨(m.arch.input_shape, m.arch.filters, m.arch.kernels, m.arch.strides,
    m.arch.latent_space_shape), m.weights⟩

/-- load: read the parameter record, rebuild the graph with
VariationalAutoencoder(*params), then load the weight snapshot into the
fresh instance.  A failing rebuild is fatal. -/
def load (sm : SavedModel) : Except String ModelState :=
  match mkVAE sm.params.1 sm.params.2.1 sm.params.2.2.1 sm.params.2.2.2.1
      sm.params.2.2.2.2 with
  | Except.ok arch => Except.ok ⟨arch, sm.weights⟩
  | Except.error e => Except.error e

end VariationalAutoencoder

/-- The encoder's convolutional stack written as a simultaneous traversal
of the three equally-long configuration lists, in order. -/
def encLayers : List ℕ → List ℕ → List ℕ → List Layer
  | f :: fs, k :: ks, s :: ss =>
    Layer.conv f k s :: Layer.relu :: Layer.batchNorm :: encLayers fs ks ss
  | _, _, _ => []

/-- The decoder's loop blocks written as a simultaneous traversal of three
equally-long lists of filters, kernels and strides, in order. -/
def decLayers : List ℕ → List ℕ → List ℕ → List Layer
  | f :: fs, k :: ks, s :: ss =>
    Layer.convT f k s :: Layer.relu :: Layer.batchNorm :: decLayers fs ks ss
  | _, _, _ => []

/-- Every stride in the list is positive and exactly divides the running
spatial size, so each same-padded convolution's ceiling division is exact. -/
def exactDownB (h : ℕ) : List ℕ → Bool
  | [] => true
  | s :: t => (decide (0 < s) && decide (h % s = 0)) && exactDownB (h / s) t

/-- Witness model for the shape round-trip: channel depth 1, stride 2
dividing the spatial size 4. -/
def bWr : BuiltVAE :=
  ⟨[4, 4, 1], [2], [3], [2], 3,
    [Layer.conv 2 3 2, Layer.relu, Layer.batchNorm],
    [2, 2, 2],
    [Layer.dense 8, Layer.reshape [2, 2, 2], Layer.convT 1 3 2, Layer.sigmoid]⟩

/-- Witness model for the decoder-structure theorem. -/
def bW7 : BuiltVAE :=
  ⟨[6, 6, 1], [2], [3], [3], 2,
    [Layer.conv 2 3 3, Layer.relu, Layer.batchNorm],
    [2, 2, 2],
    [Layer.dense 8, Layer.reshape [2, 2, 2], Layer.convT 1 3 3, Layer.sigmoid]⟩

/-- Witness model for the save/load round-trip. -/
def mW9 : VariationalAutoencoder.ModelState :=
  ⟨⟨[2, 2, 1], [4], [1], [1], 5,
    [Layer.conv 4 1 1, Layer.relu, Layer.batchNorm],
    [2, 2, 4],
    [Layer.dense 16, Layer.reshape [2, 2, 4], Layer.convT 1 1 1, Layer.sigmoid]⟩,
   [0, 1, 2]⟩

/-- Witness model for the nonempty-configuration precondition. -/
def bW10 : BuiltVAE :=
  ⟨[1, 1, 1], [1], [1], [1], 1,
    [Layer.conv 1 1 1, Layer.relu, Layer.batchNorm],
    [1, 1, 1],
    [Layer.dense 1, Layer.reshape [1, 1, 1], Layer.convT 1 1 1, Layer.sigmoid]⟩

/-- The model built from the spec's end-to-end scenario configuration:
input_shape (28,28,1), filters [32,64], kernels [3,3], strides [1,2],
latent_dim 2. -/
def b8 : BuiltVAE :=
  ⟨[28, 28, 1], [32, 64], [3, 3], [1, 2], 2,
    [Layer.conv 32 3 1, Layer.relu, Layer.batchNorm,
     Layer.conv 64 3 2, Layer.relu, Layer.batchNorm],
    [14, 14, 64],
    [Layer.dense 12544, Layer.reshape [14, 14, 64],
     Layer.convT 64 3 2, Layer.relu, Layer.batchNorm,
     Layer.convT 1 3 1, Layer.sigmoid]⟩

/-- A model whose input has channel depth 3: the decoder still emits one
channel. -/
def bC1a : BuiltVAE :=
  ⟨[4, 4, 3], [2], [3], [1], 2,
    [Layer.conv 2 3 1, Layer.relu, Layer.batchNorm],
    [4, 4, 2],
    [Layer.dense 32, Layer.reshape [4, 4, 2], Layer.convT 1 3 1, Layer.sigmoid]⟩

/-- A model whose spatial size 5 is not divisible by its stride 2: the
encoder rounds 5/2 up to 3 and the decoder expands 3 back to 6. -/
def bC1b : BuiltVAE :=
  ⟨[5, 5, 1], [2], [3], [2], 2,
    [Layer.conv 2 3 2, Layer.relu, Layer.batchNorm],
    [3, 3, 2],
    [Layer.dense 18, Layer.reshape [3, 3, 2], Layer.convT 1 3 2, Layer.sigmoid]⟩

/- ------------------------------------------------------------------ -/
/- Helper lemmas                                                       -/
/- ------------------------------------------------------------------ -/

theorem zipWith_getD {α β γ : Type} (f : α → β → γ) (l1 : List α) (l2 : List β)
    (i : ℕ) (d1 : α) (d2 : β) (d3 : γ) (h1 : i < l1.length) (h2 : i < l2.length) :
    (List.zipWith f l1 l2).getD i d3 = f (l1.getD i d1) (l2.getD i d2) := by
  induction l1 generalizing l2 i with
  | nil => simp at h1
  | cons a as ih =>
    cases l2 with
    | nil => simp at h2
    | cons b bs =>
      cases i with
      | zero => rfl
      | succ n =>
        simp only [List.zipWith_cons_cons, List.getD_cons_succ]
        exact ih bs n (by simpa using h1) (by simpa using h2)

theorem zipWith3_getD (f : ℝ → ℝ → ℝ → ℝ) (l1 l2 l3 : List ℝ)
    (i : ℕ) (h1 : i < l1.length) (h2 : i < l2.length) (h3 : i < l3.length) :
    (zipWith3 f l1 l2 l3).getD i 0 = f (l1.getD i 0) (l2.getD i 0) (l3.getD i 0) := by
  induction l1 generalizing l2 l3 i with
  | nil => simp at h1
  | cons a as ih =>
    cases l2 with
    | nil => simp at h2
    | cons b bs =>
      cases l3 with
      | nil => simp at h3
      | cons c cs =>
        cases i with
        | zero => rfl
        | succ n =>
          simp only [zipWith3, List.getD_cons_succ]
          exact ih bs cs n (by simpa using h1) (by simpa using h2) (by simpa using h3)

theorem normal_distribution_std (eps : List ℝ) :
    normal_distribution (List.replicate eps.length 0) (List.replicate eps.length 0) eps
      = eps := by
  induction eps with
  | nil => rfl
  | cons e t ih =>
    simp only [normal_distribution] at ih ⊢
    simp only [List.length_cons, List.replicate_succ, zipWith3]
    rw [ih, zero_div, Real.exp_zero, one_mul, zero_add]

theorem sumsq_sub_self (l : List ℝ) :
    ((List.zipWith (fun x y => x - y) l l).map (fun x => x ^ 2)).sum = 0 := by
  induction l with
  | nil => rfl
  | cons a t ih =>
    simp only [List.zipWith_cons_cons, List.map_cons, List.sum_cons, sub_self, ih]
    norm_num

theorem sumsq_sub_self2 (m : List (List ℝ)) :
    ((((List.zipWith (List.zipWith (fun x y => x - y)) m m).map
      (List.map (fun x => x ^ 2))).map List.sum).sum) = 0 := by
  induction m with
  | nil => rfl
  | cons r t ih =>
    simp only [List.zipWith_cons_cons, List.map_cons, List.sum_cons, ih, sumsq_sub_self r]
    norm_num

theorem tsum3_sq_sub_self (t : Tensor3) :
    tsum3 (tmap3 (fun x => x ^ 2) (tsub3 t t)) = 0 := by
  induction t with
  | nil => rfl
  | cons m tl ih =>
    simp only [tsub3, tmap3, tsum3, List.zipWith_cons_cons, List.map_cons,
      List.sum_cons] at *
    rw [ih]
    have := sumsq_sub_self2 m
    rw [this]
    norm_num

/- ------------------------------------------------------------------ -/
/- Claim theorems                                                      -/
/- ------------------------------------------------------------------ -/

/-- C2: the sampling layer computes z = mu + exp(sigma / 2) * eps
element-wise, and for mu = 0, sigma = 0 and any fixed draw eps it yields
exactly eps. -/
theorem sampling_reparameterization (mu sigma eps : List ℝ) (i : ℕ)
    (h1 : i < mu.length) (h2 : i < sigma.length) (h3 : i < eps.length) :
    (normal_distribution mu sigma eps).getD i 0 =
      mu.getD i 0 + Real.exp (sigma.getD i 0 / 2) * eps.getD i 0 ∧
    normal_distribution (List.replicate eps.length 0) (List.replicate eps.length 0) eps
      = eps :=
  ⟨zipWith3_getD _ mu sigma eps i h1 h2 h3, normal_distribution_std eps⟩

theorem sampling_reparameterization_witness :
    normal_distribution (List.replicate [(5 : ℝ)].length 0)
      (List.replicate [(5 : ℝ)].length 0) [(5 : ℝ)] = [(5 : ℝ)] :=
  (sampling_reparameterization [1] [0] [5] 0 (by decide) (by decide) (by decide)).2

/-- C3: the divergence loss is -0.5 * sum over latent dimensions of
(1 + sigma - mu^2 - exp sigma) per batch sample, ignores its
y_true/y_pred arguments entirely, and is 0 for every sample at
mu = 0, sigma = 0. -/
theorem kl_divergence_props (yt yp yt2 yp2 : Tensor4) (mu sigma : List (List ℝ))
    (i : ℕ) (b d : ℕ) (h1 : i < mu.length) (h2 : i < sigma.length) :
    compute_kl_loss yt yp mu sigma = compute_kl_loss yt2 yp2 mu sigma ∧
    (compute_kl_loss yt yp mu sigma).getD i 0 =
      -0.5 * (List.zipWith (fun mi si => 1 + si - mi ^ 2 - Real.exp si)
        (mu.getD i []) (sigma.getD i [])).sum ∧
    compute_kl_loss yt yp (List.replicate b (List.replicate d 0))
      (List.replicate b (List.replicate d 0)) = List.replicate b 0 := by
  refine ⟨rfl, ?_, ?_⟩
  · exact zipWith_getD _ mu sigma i [] [] 0 h1 h2
  · simp only [compute_kl_loss, List.zipWith_replicate', Real.exp_zero]
    norm_num [List.sum_replicate]

theorem kl_divergence_props_witness :
    compute_kl_loss [] [] (List.replicate 2 (List.replicate 3 0))
      (List.replicate 2 (List.replicate 3 0)) = List.replicate 2 0 :=
  (kl_divergence_props [] [] [] [] [[1]] [[1]] 0 2 3 (by decide) (by decide)).2.2

/-- C4: the reconstruction loss yields one scalar per batch sample (no
batch averaging inside the loss) and is identically 0 at y_pred = y_true. -/
theorem reconstruction_loss_props (yt yp y : Tensor4) :
    (compute_loss yt yp).length = min yt.length yp.length ∧
    compute_loss y y = List.replicate y.length 0 := by
  constructor
  · simp [compute_loss]
  · have hz : ∀ t : Tensor3, tmean3 (tmap3 (fun x => x ^ 2) (tsub3 t t)) = 0 := by
      intro t
      rw [tmean3, tsum3_sq_sub_self, zero_div]
    calc compute_loss y y
        = y.map (fun t => tmean3 (tmap3 (fun x => x ^ 2) (tsub3 t t))) :=
          List.zipWith_same _ y
      _ = y.map (fun _ => (0 : ℝ)) := List.map_congr_left (fun t _ => hz t)
      _ = List.replicate y.length 0 := List.map_const' y 0

/-- C5: the combined loss is, per batch sample,
AE_LOSS_WEIGHT * reconstruction + divergence, with the weight an external
constant fixed before compilation. -/
theorem combined_loss_formula (w : ℝ) (yt yp : Tensor4) (mu sigma : List (List ℝ))
    (i : ℕ) (h1 : i < yt.length) (h2 : i < yp.length) (h3 : i < mu.length)
    (h4 : i < sigma.length) :
    (compute_combined_loss w yt yp mu sigma).getD i 0 =
      w * (compute_loss yt yp).getD i 0 +
        (compute_kl_loss yt yp mu sigma).getD i 0 := by
  have hl : i < (compute_loss yt yp).length := by
    simp only [compute_loss, List.length_zipWith]
    exact lt_min h1 h2
  have hk : i < (compute_kl_loss yt yp mu sigma).length := by
    simp only [compute_kl_loss, List.length_zipWith]
    exact lt_min h3 h4
  exact zipWith_getD _ _ _ i 0 0 0 hl hk

theorem combined_loss_formula_witness :
    (compute_combined_loss 2 [[[[1]]]] [[[[1]]]] [[0]] [[0]]).getD 0 0 =
      2 * (compute_loss [[[[1]]]] [[[[1]]]]).getD 0 0 +
        (compute_kl_loss [[[[1]]]] [[[[1]]]] [[0]] [[0]]).getD 0 0 :=
  combined_loss_formula 2 [[[[1]]]] [[[[1]]]] [[0]] [[0]] 0
    (by decide) (by decide) (by decide) (by decide)

/-- C6: a configuration with mismatched filters/kernels or filters/strides
lengths fails fatally at construction time with the corresponding
assertion message, leaving no model instance. -/
theorem config_length_mismatch_fails (ish f k s : List ℕ) (d : ℕ)
    (h : k.length ≠ f.length ∨ s.length ≠ f.length) :
    mkVAE ish f k s d =
      Except.error "Number of kernels should be same than number of filters." ∨
    mkVAE ish f k s d =
      Except.error "Number of strides should be same than number of filters." := by
  by_cases hk : k.length = f.length
  · have hs : s.length ≠ f.length := by
      rcases h with h | h
      · exact absurd hk h
      · exact h
    right
    simp [mkVAE, hk, hs]
  · left
    simp [mkVAE, hk]

theorem config_length_mismatch_fails_witness :
    mkVAE [1] [1] [] [] 0 =
      Except.error "Number of kernels should be same than number of filters." ∨
    mkVAE [1] [1] [] [] 0 =
      Except.error "Number of strides should be same than number of filters." :=
  config_length_mismatch_fails [1] [1] [] [] 0 (by decide)

/-- C9: save followed by load into a fresh instance reproduces the five
configuration fields in order, the weight snapshot, and therefore the
whole model state, bit for bit. -/
theorem save_load_roundtrip (m : VariationalAutoencoder.ModelState)
    (h : mkVAE m.arch.input_shape m.arch.filters m.arch.kernels m.arch.strides
      m.arch.latent_space_shape = Except.ok m.arch) :
    VariationalAutoencoder.load (VariationalAutoencoder.save m) = Except.ok m := by
  simp only [VariationalAutoencoder.load, VariationalAutoencoder.save]
  rw [h]

theorem save_load_roundtrip_witness :
    VariationalAutoencoder.load (VariationalAutoencoder.save mW9) = Except.ok mW9 :=
  save_load_roundtrip mW9 (by decide)

/-- C10: with filters = kernels = strides = [], the construction-time
length checks pass, yet building fails on the decoder's kernels[0]
lookup; a successful construction forces n_conv_layers >= 1. -/
theorem empty_config_build_fails (ish : List ℕ) (d : ℕ) (f k s : List ℕ)
    (b : BuiltVAE) :
    mkVAE ish [] [] [] d = Except.error "IndexError: list index out of range" ∧
    (mkVAE ish f k s d = Except.ok b → 1 ≤ f.length) := by
  constructor
  · rfl
  · intro hok
    by_contra hlen
    have hf : f = [] := by
      have : f.length = 0 := by omega
      exact List.length_eq_zero.mp this
    subst hf
    by_cases hk : k.length = ([] : List ℕ).length
    · have hknil : k = [] := List.length_eq_zero.mp (by simpa using hk)
      subst hknil
      by_cases hs : s.length = ([] : List ℕ).length
      · have hsnil : s = [] := List.length_eq_zero.mp (by simpa using hs)
        subst hsnil
        have herr : mkVAE ish [] [] [] d =
            Except.error "IndexError: list index out of range" := rfl
        rw [herr] at hok
        exact Except.noConfusion hok
      · have hsne : s ≠ [] := fun hnil => hs (by simp [hnil])
        have herr : mkVAE ish [] [] s d =
            Except.error "Number of strides should be same than number of filters." := by
          simp [mkVAE, hsne]
        rw [herr] at hok
        exact Except.noConfusion hok
    · have hkne : k ≠ [] := fun hnil => hk (by simp [hnil])
      have herr : mkVAE ish [] k s d =
          Except.error "Number of kernels should be same than number of filters." := by
        simp [mkVAE, hkne]
      rw [herr] at hok
      exact Except.noConfusion hok

theorem empty_config_build_fails_witness :
    mkVAE [1, 1, 1] [] [] [] 1 =
      Except.error "IndexError: list index out of range" ∧ 1 ≤ [1].length :=
  ⟨(empty_config_build_fails [1, 1, 1] 1 [1] [1] [1] bW10).1,
   (empty_config_build_fails [1, 1, 1] 1 [1] [1] [1] bW10).2 (by decide)⟩

/-- C8 counterexample: for the spec's end-to-end scenario the recorded
shape_before_ls is (14,14,64), whose spatial dimensions are (14,14), not
(28,14) as claimed. -/
theorem mnist_shape_before_cex :
    mkVAE [28, 28, 1] [32, 64] [3, 3] [1, 2] 2 = Except.ok b8 ∧
    b8.shape_before_ls.take 2 ≠ [28, 14] := by decide

/-- C8 amended: in the end-to-end scenario each encoder layer's
same-padded output spatial size is ceil(input/stride) (28 then 14), so
shape_before_ls is (14,14,64) with spatial dimensions (14,14), and the
decoder's output shape is (28,28,1). -/
theorem mnist_shapes_amended :
    mkVAE [28, 28, 1] [32, 64] [3, 3] [1, 2] 2 = Except.ok b8 ∧
    b8.shape_before_ls = [14, 14, 64] ∧
    vaeOutputShape b8 = some [28, 28, 1] := by decide

/-- C1 counterexample: a channel-3 input is reconstructed with channel
depth 1, and a spatial size not divisible by its stride (5 with stride 2)
comes back as 6, so Decoder(Encoder(x)) does not always have x's shape. -/
theorem shape_roundtrip_cex :
    (mkVAE [4, 4, 3] [2] [3] [1] 2 = Except.ok bC1a ∧
      vaeOutputShape bC1a ≠ some [4, 4, 3]) ∧
    (mkVAE [5, 5, 1] [2] [3] [2] 2 = Except.ok bC1b ∧
      vaeOutputShape bC1b ≠ some [5, 5, 1]) := by decide


/- ------------------------------------------------------------------ -/
/- Structure of the built encoder and decoder stacks                   -/
/- ------------------------------------------------------------------ -/

theorem blocksFor_map_succ (blk : ℕ → Option (List Layer)) (idxs : List ℕ) :
    blocksFor blk (idxs.map Nat.succ) = blocksFor (fun l => blk (l + 1)) idxs := by
  induction idxs with
  | nil => rfl
  | cons i rest ih => simp only [List.map_cons, blocksFor, ih]

theorem build_encoder_eq_encLayers (fs ks ss : List ℕ)
    (hk : ks.length = fs.length) (hs : ss.length = fs.length) :
    build_encoder fs ks ss = some (encLayers fs ks ss) := by
  induction fs generalizing ks ss with
  | nil =>
    obtain rfl : ks = [] := List.length_eq_zero.mp hk
    obtain rfl : ss = [] := List.length_eq_zero.mp hs
    rfl
  | cons f ft ih =>
    cases ks with
    | nil => simp only [List.length_nil, List.length_cons] at hk; omega
    | cons k kt =>
      cases ss with
      | nil => simp only [List.length_nil, List.length_cons] at hs; omega
      | cons s st =>
        have hk' : kt.length = ft.length := by
          simp only [List.length_cons] at hk; omega
        have hs' : st.length = ft.length := by
          simp only [List.length_cons] at hs; omega
        show blocksFor (encBlock (f :: ft) (k :: kt) (s :: st))
          (List.range (ft.length + 1)) = _
        rw [List.range_succ_eq_map, blocksFor, blocksFor_map_succ]
        have hstep : (fun l => encBlock (f :: ft) (k :: kt) (s :: st) (l + 1)) =
            encBlock ft kt st := rfl
        rw [hstep]
        rw [show blocksFor (encBlock ft kt st) (List.range ft.length) =
          build_encoder ft kt st from rfl, ih kt st hk' hs']
        rfl

theorem runShapes_encLayers (fs ks ss : List ℕ) (h w c0 : ℕ)
    (hk : ks.length = fs.length) (hs : ss.length = fs.length) :
    runShapes [h, w, c0] (encLayers fs ks ss) =
      some [List.foldl ceilDiv h ss, List.foldl ceilDiv w ss,
        List.foldl (fun _ x => x) c0 fs] := by
  induction fs generalizing ks ss h w c0 with
  | nil =>
    obtain rfl : ks = [] := List.length_eq_zero.mp hk
    obtain rfl : ss = [] := List.length_eq_zero.mp hs
    rfl
  | cons f ft ih =>
    cases ks with
    | nil => simp only [List.length_nil, List.length_cons] at hk; omega
    | cons k kt =>
      cases ss with
      | nil => simp only [List.length_nil, List.length_cons] at hs; omega
      | cons s st =>
        have hk' : kt.length = ft.length := by
          simp only [List.length_cons] at hk; omega
        have hs' : st.length = ft.length := by
          simp only [List.length_cons] at hs; omega
        show runShapes [ceilDiv h s, ceilDiv w s, f] (encLayers ft kt st) = _
        rw [ih kt st (ceilDiv h s) (ceilDiv w s) f hk' hs']
        rfl

theorem runShapes_append (l1 l2 : List Layer) (sh : List ℕ) :
    runShapes sh (l1 ++ l2) =
      match runShapes sh l1 with
      | some sh2 => runShapes sh2 l2
      | none => none := by
  induction l1 generalizing sh with
  | nil => rfl
  | cons a rest ih =>
    simp only [List.cons_append, runShapes]
    cases h : layerOutShape sh a with
    | none => rfl
    | some sh2 => exact ih sh2

theorem runShapes_decLayers (fs ks ss : List ℕ) (h w c0 : ℕ)
    (hk : ks.length = fs.length) (hs : ss.length = fs.length) :
    runShapes [h, w, c0] (decLayers fs ks ss) =
      some [h * ss.prod, w * ss.prod, List.foldl (fun _ x => x) c0 fs] := by
  induction fs generalizing ks ss h w c0 with
  | nil =>
    obtain rfl : ks = [] := List.length_eq_zero.mp hk
    obtain rfl : ss = [] := List.length_eq_zero.mp hs
    simp [decLayers, runShapes]
  | cons f ft ih =>
    cases ks with
    | nil => simp only [List.length_nil, List.length_cons] at hk; omega
    | cons k kt =>
      cases ss with
      | nil => simp only [List.length_nil, List.length_cons] at hs; omega
      | cons s st =>
        have hk' : kt.length = ft.length := by
          simp only [List.length_cons] at hk; omega
        have hs' : st.length = ft.length := by
          simp only [List.length_cons] at hs; omega
        show runShapes [h * s, w * s, f] (decLayers ft kt st) = _
        rw [ih kt st (h * s) (w * s) f hk' hs']
        simp only [List.prod_cons, Option.some.injEq, List.cons.injEq]
        exact ⟨by ring, by ring, rfl, trivial⟩

theorem range'_one_succ_reverse (m : ℕ) :
    (List.range' 1 (m + 1)).reverse = (m + 1) :: (List.range' 1 m).reverse := by
  rw [List.range'_concat, List.reverse_concat]
  norm_num [Nat.add_comm]

theorem blocksFor_decBlock_restrict (fi ki si : List ℕ) (fl kl sl f0 k0 s0 : ℕ)
    (hki : ki.length = fi.length) (hsi : si.length = fi.length)
    (idxs : List ℕ) (hbound : ∀ l ∈ idxs, 1 ≤ l ∧ l < fi.length + 1) :
    blocksFor (decBlock (f0 :: (fi ++ [fl])) (k0 :: (ki ++ [kl])) (s0 :: (si ++ [sl]))) idxs =
      blocksFor (decBlock (f0 :: fi) (k0 :: ki) (s0 :: si)) idxs := by
  induction idxs with
  | nil => rfl
  | cons i rest ih =>
    have hi := hbound i (List.mem_cons_self i rest)
    have hblk : decBlock (f0 :: (fi ++ [fl])) (k0 :: (ki ++ [kl])) (s0 :: (si ++ [sl])) i =
        decBlock (f0 :: fi) (k0 :: ki) (s0 :: si) i := by
      obtain ⟨j, rfl⟩ : ∃ j, i = j + 1 := ⟨i - 1, by omega⟩
      have hj : j < fi.length := by omega
      show (match (fi ++ [fl]).get? j, (ki ++ [kl]).get? j, (si ++ [sl]).get? j with
        | some f, some k, some s =>
          some [Layer.convT f k s, Layer.relu, Layer.batchNorm]
        | _, _, _ => none) =
        (match fi.get? j, ki.get? j, si.get? j with
        | some f, some k, some s =>
          some [Layer.convT f k s, Layer.relu, Layer.batchNorm]
        | _, _, _ => none)
      rw [List.get?_append hj, List.get?_append (show j < ki.length by omega),
        List.get?_append (show j < si.length by omega)]
    rw [blocksFor, blocksFor, hblk,
      ih (fun l hl => hbound l (List.mem_cons_of_mem i hl))]

theorem blocksFor_decBlock_eq (m : ℕ) (fs ks ss : List ℕ) (f0 k0 s0 : ℕ)
    (hk : ks.length = fs.length) (hs : ss.length = fs.length) (hm : m = fs.length) :
    blocksFor (decBlock (f0 :: fs) (k0 :: ks) (s0 :: ss)) ((List.range' 1 m).reverse) =
      some (decLayers fs.reverse ks.reverse ss.reverse) := by
  induction m generalizing fs ks ss with
  | zero =>
    obtain rfl : fs = [] := List.length_eq_zero.mp hm.symm
    obtain rfl : ks = [] := List.length_eq_zero.mp hk
    obtain rfl : ss = [] := List.length_eq_zero.mp hs
    rfl
  | succ n ih =>
    rcases List.eq_nil_or_concat fs with rfl | ⟨fi, fl, rfl⟩
    · simp only [List.length_nil] at hm; omega
    rcases List.eq_nil_or_concat ks with rfl | ⟨ki, kl, rfl⟩
    · rw [List.concat_eq_append] at hk
      simp only [List.length_nil, List.length_append, List.length_cons] at hk; omega
    rcases List.eq_nil_or_concat ss with rfl | ⟨si, sl, rfl⟩
    · rw [List.concat_eq_append] at hs
      simp only [List.length_nil, List.length_append, List.length_cons] at hs; omega
    simp only [List.concat_eq_append] at hm hk hs ⊢
    have hfi : fi.length = n := by
      simp only [List.length_append, List.length_cons, List.length_nil] at hm; omega
    have hki : ki.length = fi.length := by
      simp only [List.length_append, List.length_cons, List.length_nil] at hk; omega
    have hsi : si.length = fi.length := by
      simp only [List.length_append, List.length_cons, List.length_nil] at hs; omega
    rw [range'_one_succ_reverse]
    simp only [blocksFor]
    have e1 : (f0 :: (fi ++ [fl])).get? (n + 1) = some fl := by
      have h1 : (f0 :: fi).length = n + 1 := by simp [hfi]
      rw [← h1]
      exact List.get?_concat_length (f0 :: fi) fl
    have e2 : (k0 :: (ki ++ [kl])).get? (n + 1) = some kl := by
      have h2 : (k0 :: ki).length = n + 1 := by simp [hki, hfi]
      rw [← h2]
      exact List.get?_concat_length (k0 :: ki) kl
    have e3 : (s0 :: (si ++ [sl])).get? (n + 1) = some sl := by
      have h3 : (s0 :: si).length = n + 1 := by simp [hsi, hfi]
      rw [← h3]
      exact List.get?_concat_length (s0 :: si) sl
    have hlast : decBlock (f0 :: (fi ++ [fl])) (k0 :: (ki ++ [kl])) (s0 :: (si ++ [sl]))
        (n + 1) = some [Layer.convT fl kl sl, Layer.relu, Layer.batchNorm] := by
      unfold decBlock
      rw [e1, e2, e3]
    have hrest : blocksFor
        (decBlock (f0 :: (fi ++ [fl])) (k0 :: (ki ++ [kl])) (s0 :: (si ++ [sl])))
        ((List.range' 1 n).reverse) =
        some (decLayers fi.reverse ki.reverse si.reverse) := by
      rw [blocksFor_decBlock_restrict fi ki si fl kl sl f0 k0 s0 hki hsi
        ((List.range' 1 n).reverse)
        (by
          intro l hl
          rw [List.mem_reverse, List.mem_range'] at hl
          obtain ⟨i, hi, rfl⟩ := hl
          omega)]
      exact ih fi ki si hki hsi hfi.symm
    rw [hlast, hrest, List.reverse_concat, List.reverse_concat, List.reverse_concat]
    rfl

theorem build_decoder_eq (f0 k0 s0 : ℕ) (fs ks ss sb : List ℕ)
    (hk : ks.length = fs.length) (hs : ss.length = fs.length) :
    build_decoder (f0 :: fs) (k0 :: ks) (s0 :: ss) sb =
      some (Layer.dense sb.prod :: Layer.reshape sb ::
        (decLayers fs.reverse ks.reverse ss.reverse ++
          [Layer.convT 1 k0 s0, Layer.sigmoid])) := by
  unfold build_decoder
  have hlen : (f0 :: fs).length - 1 = fs.length := by simp
  rw [hlen, blocksFor_decBlock_eq fs.length fs ks ss f0 k0 s0 hk hs rfl]
  rfl

theorem build_decoder_nonempty {f k s sb : List ℕ} {dec : List Layer}
    (h : build_decoder f k s sb = some dec) : k ≠ [] ∧ s ≠ [] := by
  constructor
  · intro hnil
    subst hnil
    cases hbl : blocksFor (decBlock f [] s) ((List.range' 1 (f.length - 1)).reverse) <;>
      simp [build_decoder, hbl] at h
  · intro hnil
    subst hnil
    cases hbl : blocksFor (decBlock f k []) ((List.range' 1 (f.length - 1)).reverse) <;>
      cases hk0 : k.get? 0 <;>
      simp [build_decoder, hbl, hk0] at h

theorem mkVAE_ok_inv {ish f k s : List ℕ} {d : ℕ} {b : BuiltVAE}
    (hb : mkVAE ish f k s d = Except.ok b) :
    k.length = f.length ∧ s.length = f.length ∧
    build_encoder f k s = some b.encoder ∧
    runShapes ish b.encoder = some b.shape_before_ls ∧
    build_decoder f k s b.shape_before_ls = some b.decoder ∧
    b.input_shape = ish ∧ b.filters = f ∧ b.kernels = k ∧ b.strides = s ∧
    b.latent_space_shape = d := by
  by_cases hk : k.length = f.length
  · by_cases hs : s.length = f.length
    · unfold mkVAE at hb
      rw [if_pos hk, if_pos hs] at hb
      cases henc : build_encoder f k s with
      | none =>
        simp only [henc] at hb
        exact Except.noConfusion hb
      | some enc =>
        simp only [henc] at hb
        cases hsb : runShapes ish enc with
        | none =>
          simp only [hsb] at hb
          exact Except.noConfusion hb
        | some sb =>
          simp only [hsb] at hb
          cases hdec : build_decoder f k s sb with
          | none =>
            simp only [hdec] at hb
            exact Except.noConfusion hb
          | some dec =>
            simp only [hdec] at hb
            cases hout : runShapes [d] dec with
            | none =>
              simp only [hout] at hb
              exact Except.noConfusion hb
            | some o =>
              simp only [hout] at hb
              injection hb with hb
              subst hb
              exact ⟨hk, hs, rfl, hsb, hdec, rfl, rfl, rfl, rfl, rfl⟩
    · unfold mkVAE at hb
      rw [if_pos hk, if_neg hs] at hb
      exact Except.noConfusion hb
  · unfold mkVAE at hb
    rw [if_neg hk] at hb
    exact Except.noConfusion hb

theorem ceilDiv_exact {h s : ℕ} (hpos : 0 < s) (hmod : h % s = 0) :
    ceilDiv h s = h / s := by
  obtain ⟨q, hq⟩ := Nat.dvd_of_mod_eq_zero hmod
  subst hq
  unfold ceilDiv
  have harith : s * q + s - 1 = s * q + (s - 1) := by omega
  rw [harith, Nat.mul_add_div hpos, Nat.div_eq_of_lt (by omega),
    Nat.mul_div_cancel_left q hpos]
  omega

theorem foldl_ceilDiv_exact (ss : List ℕ) (h : ℕ) (hex : exactDownB h ss = true) :
    (List.foldl ceilDiv h ss) * ss.prod = h := by
  induction ss generalizing h with
  | nil => simp
  | cons s st ih =>
    simp only [exactDownB, Bool.and_eq_true, decide_eq_true_eq] at hex
    obtain ⟨⟨hpos, hmod⟩, hrest⟩ := hex
    have hstep : List.foldl ceilDiv h (s :: st) = List.foldl ceilDiv (h / s) st := by
      show List.foldl ceilDiv (ceilDiv h s) st = _
      rw [ceilDiv_exact hpos hmod]
    rw [hstep, List.prod_cons]
    calc List.foldl ceilDiv (h / s) st * (s * st.prod)
        = (List.foldl ceilDiv (h / s) st * st.prod) * s := by ring
      _ = (h / s) * s := by rw [ih (h / s) hrest]
      _ = h := Nat.div_mul_cancel (Nat.dvd_of_mod_eq_zero hmod)

/-- C1 amended: Decoder(Encoder(x)) has x's shape provided the input's
channel depth is 1 (the decoder's final layer fixes the output channel
count to 1, not to the input's depth) and every stride exactly divides
the running spatial size (otherwise the ceiling of the same-padded
encoder and the exact upsampling of the decoder disagree). -/
theorem shape_roundtrip_amended (h w d : ℕ) (f k s : List ℕ) (b : BuiltVAE)
    (hb : mkVAE [h, w, 1] f k s d = Except.ok b)
    (hexh : exactDownB h s = true) (hexw : exactDownB w s = true) :
    vaeOutputShape b = some [h, w, 1] := by
  obtain ⟨hk, hs, henc, hsb, hdec, hish, hf, hkk, hss, hd⟩ := mkVAE_ok_inv hb
  obtain ⟨hkne, hsne⟩ := build_decoder_nonempty hdec
  obtain ⟨k0, kt, rfl⟩ := List.exists_cons_of_ne_nil hkne
  obtain ⟨s0, st, rfl⟩ := List.exists_cons_of_ne_nil hsne
  have hfne : f ≠ [] := by
    intro hnil
    subst hnil
    simp only [List.length_cons, List.length_nil] at hk
    omega
  obtain ⟨f0, ft, rfl⟩ := List.exists_cons_of_ne_nil hfne
  have hk' : kt.length = ft.length := by simp only [List.length_cons] at hk; omega
  have hs' : st.length = ft.length := by simp only [List.length_cons] at hs; omega
  rw [build_encoder_eq_encLayers (f0 :: ft) (k0 :: kt) (s0 :: st) hk hs] at henc
  injection henc with henc
  rw [← henc] at hsb
  rw [runShapes_encLayers (f0 :: ft) (k0 :: kt) (s0 :: st) h w 1 hk hs] at hsb
  injection hsb with hsb
  rw [build_decoder_eq f0 k0 s0 ft kt st b.shape_before_ls hk' hs'] at hdec
  injection hdec with hdec
  show runShapes [b.latent_space_shape] b.decoder = some [h, w, 1]
  rw [hd, ← hdec, ← hsb]
  have hstep : ∀ (sbl : List ℕ) (X : List Layer),
      runShapes [d] (Layer.dense sbl.prod :: Layer.reshape sbl :: X) =
        runShapes sbl X := by
    intro sbl X
    show runShapes [sbl.prod] (Layer.reshape sbl :: X) = runShapes sbl X
    have hcond : ([sbl.prod] : List ℕ).prod = sbl.prod := by simp
    simp only [runShapes, layerOutShape, hcond, if_true]
  rw [hstep, runShapes_append,
    runShapes_decLayers ft.reverse kt.reverse st.reverse _ _ _
      (by simp [hk']) (by simp [hs'])]
  have hH : List.foldl ceilDiv h (s0 :: st) * st.reverse.prod * s0 = h := by
    rw [List.prod_reverse]
    have hfold := foldl_ceilDiv_exact (s0 :: st) h hexh
    rw [List.prod_cons] at hfold
    calc List.foldl ceilDiv h (s0 :: st) * st.prod * s0
        = List.foldl ceilDiv h (s0 :: st) * (s0 * st.prod) := by ring
      _ = h := hfold
  have hW : List.foldl ceilDiv w (s0 :: st) * st.reverse.prod * s0 = w := by
    rw [List.prod_reverse]
    have hfold := foldl_ceilDiv_exact (s0 :: st) w hexw
    rw [List.prod_cons] at hfold
    calc List.foldl ceilDiv w (s0 :: st) * st.prod * s0
        = List.foldl ceilDiv w (s0 :: st) * (s0 * st.prod) := by ring
      _ = w := hfold
  show some [List.foldl ceilDiv h (s0 :: st) * st.reverse.prod * s0,
    List.foldl ceilDiv w (s0 :: st) * st.reverse.prod * s0, 1] = some [h, w, 1]
  rw [hH, hW]

theorem shape_roundtrip_amended_witness : vaeOutputShape bWr = some [4, 4, 1] :=
  shape_roundtrip_amended 4 4 3 [2] [3] [2] bWr (by decide) (by decide) (by decide)

/-- C7: the built decoder is exactly a dense projection, a reshape to
shape_before_ls, one same-padded transposed-convolution block
(filters[l], kernels[l], strides[l], ReLU, normalization) for each layer
index l from n_conv_layers-1 down to 1, and a final transposed
convolution with channel count 1 using kernels[0]/strides[0] followed by
a sigmoid, whose output always lies strictly between 0 and 1. -/
theorem decoder_structure (ish f k s : List ℕ) (d : ℕ) (b : BuiltVAE) (x : ℝ)
    (hb : mkVAE ish f k s d = Except.ok b) :
    b.decoder = Layer.dense b.shape_before_ls.prod :: Layer.reshape b.shape_before_ls ::
      (decLayers (f.drop 1).reverse (k.drop 1).reverse (s.drop 1).reverse ++
        [Layer.convT 1 (k.getD 0 0) (s.getD 0 0), Layer.sigmoid]) ∧
    0 < sigmoid x ∧ sigmoid x < 1 := by
  obtain ⟨hk, hs, henc, hsb, hdec, hish, hf, hkk, hss, hd⟩ := mkVAE_ok_inv hb
  obtain ⟨hkne, hsne⟩ := build_decoder_nonempty hdec
  refine ⟨?_, ?_, ?_⟩
  · obtain ⟨k0, kt, rfl⟩ := List.exists_cons_of_ne_nil hkne
    obtain ⟨s0, st, rfl⟩ := List.exists_cons_of_ne_nil hsne
    have hfne : f ≠ [] := by
      intro hnil
      subst hnil
      simp only [List.length_cons, List.length_nil] at hk
      omega
    obtain ⟨f0, ft, rfl⟩ := List.exists_cons_of_ne_nil hfne
    have hk' : kt.length = ft.length := by simp only [List.length_cons] at hk; omega
    have hs' : st.length = ft.length := by simp only [List.length_cons] at hs; omega
    rw [build_decoder_eq f0 k0 s0 ft kt st b.shape_before_ls hk' hs'] at hdec
    injection hdec with hdec
    rw [← hdec]
    rfl
  · unfold sigmoid
    positivity
  · unfold sigmoid
    rw [div_lt_one (by positivity)]
    linarith [Real.exp_pos (-x)]

theorem decoder_structure_witness : 0 < sigmoid 0 ∧ sigmoid 0 < 1 :=
  ⟨(decoder_structure [6, 6, 1] [2] [3] [3] 2 bW7 0 (by decide)).2.1,
   (decoder_structure [6, 6, 1] [2] [3] [3] 2 bW7 0 (by decide)).2.2⟩
